import Mathlib

/-!
Shallow embedding of the contact-manager core from `Bot_7.py` (Field hierarchy
Name/Phone/Birthday, Record, AddressBook with the upcoming-birthday query),
together with theorems checking the natural-language specification against it.

Modelling conventions:
- Python exceptions are modelled with `Except String`; the error strings are
  the messages raised by the source.
- Python strings are modelled by Lean `String`. Character classes (`\d` of the
  `re` module, `str.isdigit`, word characters for `\b`) are modelled on code
  points; the model is exact on the Basic Latin and Latin-1 ranges and does not
  model further Unicode digit characters, which no theorem below relies on.
- Calendar dates are triples of naturals; the date arithmetic (`toordinal`,
  `fromordinal`, validation bounds year 1..9999, max ordinal 3652059) is ported
  from CPython's `datetime` module.
-/

/-- Python `str.isdigit` on a single character, modelled on the Basic Latin and
Latin-1 ranges: ASCII decimal digits plus the superscript digits U+00B9, U+00B2
and U+00B3, which Python classifies as digits but not as decimal characters.
(Python additionally accepts digit characters outside Latin-1.) -/
def pyIsDigitChar (c : Char) : Bool :=
  decide ((48 ≤ c.toNat ∧ c.toNat ≤ 57) ∨ c.toNat = 178 ∨ c.toNat = 179 ∨ c.toNat = 185)

/-- Python `value.isdigit()` on a whole string: nonempty and all characters digits. -/
def pyStrIsdigit (s : String) : Bool :=
  !s.isEmpty && s.data.all pyIsDigitChar

/-- An ASCII decimal digit, the meaning of a decimal digit character in the
specification and the model of the `re` module's digit class used below. -/
def isD (c : Char) : Bool :=
  decide (48 ≤ c.toNat ∧ c.toNat ≤ 57)

/-- Numeric value of an ASCII digit character. -/
def charVal (c : Char) : Nat :=
  c.toNat - 48

/-- A word character for the `re` module's word boundary, ASCII range:
letters, decimal digits and underscore. -/
def reWordChar (c : Char) : Bool :=
  isD c || decide ((65 ≤ c.toNat ∧ c.toNat ≤ 90) ∨ (97 ≤ c.toNat ∧ c.toNat ≤ 122) ∨ c.toNat = 95)

/-- The `Name` field of the source: stores the given value with no validation. -/
structure Name where
  value : String
deriving DecidableEq

/-- Constructing a `Name` (source `Name.__init__`, which only calls
`Field.__init__` and stores the raw value). -/
def mkName (value : String) : Name :=
  ⟨value⟩

/-- The `Phone` field of the source: a stored phone string. -/
structure Phone where
  value : String
deriving DecidableEq

/-- Constructing a `Phone` (source `Phone.__init__`): succeeds when
`len(value) == 10 and value.isdigit()`, otherwise raises. -/
def mkPhone (value : String) : Except String Phone :=
  if value.length = 10 ∧ pyStrIsdigit value = true then .ok ⟨value⟩
  else .error "Invalid phone number format: must be exactly 10 digits"

/-- Rendering a `Phone` (source `Phone.__str__`). -/
def phoneStr (p : Phone) : String :=
  p.value

/-- A calendar date as in Python's `datetime.date`: year, month, day. -/
structure PyDate where
  year : Nat
  month : Nat
  day : Nat
deriving DecidableEq

/-- Leap-year test, ported from `datetime._is_leap`. -/
def pyIsLeap (y : Nat) : Bool :=
  y % 4 == 0 && (y % 100 != 0 || y % 400 == 0)

/-- Days in a month, ported from `datetime._days_in_month` (month 1..12). -/
def daysInMonth (y m : Nat) : Nat :=
  if m = 2 then (if pyIsLeap y then 29 else 28)
  else if m = 4 ∨ m = 6 ∨ m = 9 ∨ m = 11 then 30
  else 31

/-- Cumulative days before a month in a non-leap year, the
`_DAYS_BEFORE_MONTH` table of `datetime`. -/
def daysBeforeMonthTable (m : Nat) : Nat :=
  if m = 1 then 0 else if m = 2 then 31 else if m = 3 then 59
  else if m = 4 then 90 else if m = 5 then 120 else if m = 6 then 151
  else if m = 7 then 181 else if m = 8 then 212 else if m = 9 then 243
  else if m = 10 then 273 else if m = 11 then 304 else 334

/-- Days before the given month in the given year (`datetime._days_before_month`). -/
def daysBeforeMonth (y m : Nat) : Nat :=
  daysBeforeMonthTable m + (if 2 < m ∧ pyIsLeap y = true then 1 else 0)

/-- Days before January 1 of the given year (`datetime._days_before_year`). -/
def daysBeforeYear (y : Nat) : Nat :=
  let n := y - 1
  n * 365 + n / 4 - n / 100 + n / 400

/-- Proleptic-Gregorian ordinal of a date (`date.toordinal`); January 1 of
year 1 is ordinal 1. -/
def toRdn (d : PyDate) : Nat :=
  daysBeforeYear d.year + daysBeforeMonth d.year d.month + d.day

/-- Inverse of `toRdn`, ported from `datetime._ord2ymd`. -/
def fromRdn (n0 : Nat) : PyDate :=
  let n := n0 - 1
  let n400 := n / 146097
  let r400 := n % 146097
  let n100 := r400 / 36524
  let r100 := r400 % 36524
  let n4 := r100 / 1461
  let r4 := r100 % 1461
  let n1 := r4 / 365
  let r1 := r4 % 365
  let year := n400 * 400 + 1 + n100 * 100 + n4 * 4 + n1
  if n1 = 4 ∨ n100 = 4 then ⟨year - 1, 12, 31⟩
  else
    let month := (r1 + 50) >>> 5
    let preceding := daysBeforeMonth year month
    if r1 < preceding then ⟨year, month - 1, r1 - daysBeforeMonth year (month - 1) + 1⟩
    else ⟨year, month, r1 - preceding + 1⟩

/-- Constructing a `datetime.date`, with the validation and error messages of
`date.__new__` (`_check_date_fields`). -/
def mkDate (y m d : Nat) : Except String PyDate :=
  if ¬(1 ≤ y ∧ y ≤ 9999) then .error "year is out of range"
  else if ¬(1 ≤ m ∧ m ≤ 12) then .error "month must be in 1..12"
  else if ¬(1 ≤ d ∧ d ≤ daysInMonth y m) then .error "day is out of range for month"
  else .ok ⟨y, m, d⟩

/-- Source `birthday_date.replace(year=y)`: rebuilds the date with a new year,
revalidating; raises for example when replacing the year of February 29 by a
non-leap year. -/
def PyDate.replaceYear (d : PyDate) (y : Nat) : Except String PyDate :=
  mkDate y d.month d.day

/-- Python `date` strict comparison: lexicographic on (year, month, day). -/
def pyDateLt (a b : PyDate) : Bool :=
  decide (a.year < b.year ∨ (a.year = b.year ∧
    (a.month < b.month ∨ (a.month = b.month ∧ a.day < b.day))))

/-- Python `date` comparison `<=`. -/
def pyDateLe (a b : PyDate) : Bool :=
  pyDateLt a b || decide (a = b)

/-- Python `date.weekday()`: Monday is 0, Sunday is 6. -/
def PyDate.weekday (d : PyDate) : Nat :=
  (toRdn d + 6) % 7

/-- Python `date + timedelta(days=k)`: ordinal arithmetic with the
`_MAXORDINAL` range check of `date.__add__`. -/
def addDays (d : PyDate) (k : Int) : Except String PyDate :=
  let o : Int := (toRdn d : Int) + k
  if 0 < o ∧ o ≤ 3652059 then .ok (fromRdn o.toNat) else .error "result out of range"

/-- One attempt of the pattern from `Birthday.__init__`,
`\b\d{2}\.\d{2}\.\d{4}\b`, at the head of the character list (without the word
boundaries): two digits, a dot, two digits, a dot, four digits. Returns the
remaining characters when the ten pattern characters match. -/
def matchTen : List Char → Option (List Char)
  | a :: b :: p1 :: c :: d :: p2 :: e :: f :: g :: h :: rest =>
    if isD a = true ∧ isD b = true ∧ p1 = '.' ∧ isD c = true ∧ isD d = true ∧ p2 = '.' ∧
        isD e = true ∧ isD f = true ∧ isD g = true ∧ isD h = true
    then some rest else none
  | _ => none

/-- A full pattern attempt at the current position: the word boundary before
the first digit (the previous character, when there is one, is not a word
character), the ten pattern characters, and the word boundary after the last
digit (the following character, when there is one, is not a word character). -/
def hitAt (prev : Option Char) (cs : List Char) : Bool :=
  (match prev with
   | none => true
   | some p => !reWordChar p) &&
  (match matchTen cs with
   | none => false
   | some rest =>
     match rest with
     | [] => true
     | r :: _ => !reWordChar r)

/-- The scan of `re.search`: try the pattern at every position, tracking the
previous character for the leading word boundary. -/
def searchBD (prev : Option Char) : List Char → Bool
  | [] => hitAt prev []
  | c :: rest => hitAt prev (c :: rest) || searchBD (some c) rest

/-- Source `re.search(r'\b\d{2}\.\d{2}\.\d{4}\b', value)` as a Boolean. -/
def reSearchBirthday (s : String) : Bool :=
  searchBD none s.data

/-- The `%d` directive of `datetime.strptime`: CPython's `_strptime` matches
the ordered alternation `3[01]|[12]\d|0[1-9]|[1-9]` (character classes given on
code points: 48 is `0`, 49 is `1`, 50 is `2`, 51 is `3`, 57 is `9`).
The one-digit alternative continues with the second character unconsumed. -/
def parseDayCPy : List Char → Option (Nat × List Char)
  | [] => none
  | [c1] => if 49 ≤ c1.toNat ∧ c1.toNat ≤ 57 then some (charVal c1, []) else none
  | c1 :: c2 :: rest =>
    if c1.toNat = 51 ∧ (c2.toNat = 48 ∨ c2.toNat = 49) then
      some (charVal c1 * 10 + charVal c2, rest)
    else if (c1.toNat = 49 ∨ c1.toNat = 50) ∧ isD c2 = true then
      some (charVal c1 * 10 + charVal c2, rest)
    else if c1.toNat = 48 ∧ (49 ≤ c2.toNat ∧ c2.toNat ≤ 57) then
      some (charVal c2, rest)
    else if 49 ≤ c1.toNat ∧ c1.toNat ≤ 57 then
      some (charVal c1, c2 :: rest)
    else none

/-- The `%m` directive of `datetime.strptime`: the ordered alternation
`1[0-2]|0[1-9]|[1-9]`. -/
def parseMonthCPy : List Char → Option (Nat × List Char)
  | [] => none
  | [c1] => if 49 ≤ c1.toNat ∧ c1.toNat ≤ 57 then some (charVal c1, []) else none
  | c1 :: c2 :: rest =>
    if c1.toNat = 49 ∧ (48 ≤ c2.toNat ∧ c2.toNat ≤ 50) then
      some (10 + charVal c2, rest)
    else if c1.toNat = 48 ∧ (49 ≤ c2.toNat ∧ c2.toNat ≤ 57) then
      some (charVal c2, rest)
    else if 49 ≤ c1.toNat ∧ c1.toNat ≤ 57 then
      some (charVal c1, c2 :: rest)
    else none

/-- The `%Y` directive of `datetime.strptime`: exactly four digits. -/
def parseYear4 : List Char → Option (Nat × List Char)
  | e :: f :: g :: h :: rest =>
    if isD e = true ∧ isD f = true ∧ isD g = true ∧ isD h = true then
      some (((charVal e * 10 + charVal f) * 10 + charVal g) * 10 + charVal h, rest)
    else none
  | _ => none

/-- Source `datetime.strptime(value, '%d.%m.%Y')` up to the date-validity
check: the directives separated by literal dots, anchored at the start, and
CPython's "unconverted data remains" check that the whole string is consumed.
Returns day, month, year. -/
def strptimeDMY (s : String) : Option (Nat × Nat × Nat) :=
  match parseDayCPy s.data with
  | none => none
  | some (d, r1) =>
    match r1 with
    | [] => none
    | c :: r2 =>
      if c = '.' then
        match parseMonthCPy r2 with
        | none => none
        | some (m, r3) =>
          match r3 with
          | [] => none
          | c2 :: r4 =>
            if c2 = '.' then
              match parseYear4 r4 with
              | none => none
              | some (y, r5) => if r5 = [] then some (d, m, y) else none
            else none
      else none

/-- The `Birthday` field of the source: stores a calendar date, not the
original string. -/
structure Birthday where
  value : PyDate
deriving DecidableEq

/-- Constructing a `Birthday` (source `Birthday.__init__`): a word-bounded
`re.search` for `\d{2}\.\d{2}\.\d{4}`, then `datetime.strptime` on the whole
string with date validation; every failure raises the same message. -/
def mkBirthday (s : String) : Except String Birthday :=
  if reSearchBirthday s = true then
    match strptimeDMY s with
    | some (d, m, y) =>
      match mkDate y m d with
      | .ok dt => .ok ⟨dt⟩
      | .error _ => .error "Invalid date format. Use DD.MM.YYYY"
    | none => .error "Invalid date format. Use DD.MM.YYYY"
  else .error "Invalid date format. Use DD.MM.YYYY"

/-- An ASCII digit character from a value below 10. -/
def digitChar (n : Nat) : Char :=
  Char.ofNat (48 + n)

/-- Source `self.value.strftime('%d.%m.%Y')` (also used by
`get_upcoming_birthdays` via `strftime("%d.%m.%Y")`): day and month zero-padded
to two digits and the year zero-padded to four digits, per the format-code
table of the `datetime` documentation (C-library deviations for years below
1000 on some platforms are outside the model). -/
def strftimeDMY (d : PyDate) : String :=
  String.mk [digitChar (d.day / 10 % 10), digitChar (d.day % 10), '.',
             digitChar (d.month / 10 % 10), digitChar (d.month % 10), '.',
             digitChar (d.year / 1000 % 10), digitChar (d.year / 100 % 10),
             digitChar (d.year / 10 % 10), digitChar (d.year % 10)]

/-- A contact record of the source: a name, an ordered phone list, an optional
birthday. -/
structure Record where
  name : Name
  phones : List Phone
  birthday : Option Birthday
deriving DecidableEq

/-- Source `Record.__init__`: fresh record with the given name, no phones, no
birthday. -/
def mkRecord (name : String) : Record :=
  ⟨mkName name, [], none⟩

/-- Source `Record.add_phone`: validate through the `Phone` constructor, then
append. -/
def Record.add_phone (r : Record) (phone : String) : Except String Record :=
  match mkPhone phone with
  | .ok p => .ok { r with phones := r.phones ++ [p] }
  | .error e => .error e

/-- Removal of the first phone whose stored value equals the argument
(source `Record.remove_phone` finds that object and `list.remove`s it). -/
def removeFirstPhone : List Phone → String → List Phone
  | [], _ => []
  | p :: ps, s => if p.value = s then ps else p :: removeFirstPhone ps s

/-- Source `Record.remove_phone`: drop the first match, no error when absent. -/
def Record.remove_phone (r : Record) (phone : String) : Record :=
  { r with phones := removeFirstPhone r.phones phone }

/-- Source `Record.find_phone`: the first phone whose value equals the
argument, if any. -/
def Record.find_phone (r : Record) (phone : String) : Option Phone :=
  r.phones.find? (fun p => p.value == phone)

/-- Replacing the value of the first phone equal to `old` by `nw`. Source
`Record.edit_phone` mutates the object returned by `find_phone` in place;
since that object is the first list element with the matching value, the
mutation is this functional replacement. -/
def replaceFirstPhone : List Phone → String → String → List Phone
  | [], _, _ => []
  | p :: ps, old, nw => if p.value = old then ⟨nw⟩ :: ps else p :: replaceFirstPhone ps old nw

/-- Source `Record.edit_phone`: on a found old value, overwrite it with the
new string directly (the source assigns `phone.value = new_phone` without
constructing a `Phone`, so no validation happens here); otherwise raise. -/
def Record.edit_phone (r : Record) (old_phone new_phone : String) : Except String Record :=
  match r.find_phone old_phone with
  | some _ => .ok { r with phones := replaceFirstPhone r.phones old_phone new_phone }
  | none => .error "Phone not found"

/-- Source `Record.add_birthday`: parse through the `Birthday` constructor and
overwrite; the assignment happens only after a successful construction. -/
def Record.add_birthday (r : Record) (birthday : String) : Except String Record :=
  match mkBirthday birthday with
  | .ok b => .ok { r with birthday := some b }
  | .error e => .error e

/-- One core operation on a record, for reachability statements. -/
inductive RecOp where
  | addPhone (s : String)
  | removePhone (s : String)
  | editPhone (old nw : String)
  | findPhone (s : String)
  | addBirthday (s : String)
deriving DecidableEq

/-- Applying one operation; a raising operation leaves the record as it was
(in the source the exception propagates before any mutation). `find_phone` is
a pure read. -/
def applyRecOp (r : Record) : RecOp → Record
  | .addPhone s =>
    match r.add_phone s with
    | .ok r2 => r2
    | .error _ => r
  | .removePhone s => r.remove_phone s
  | .editPhone old nw =>
    match r.edit_phone old nw with
    | .ok r2 => r2
    | .error _ => r
  | .findPhone _ => r
  | .addBirthday s =>
    match r.add_birthday s with
    | .ok r2 => r2
    | .error _ => r

/-- A sequence of core operations applied in order. -/
def runRecOps (r : Record) : List RecOp → Record
  | [] => r
  | op :: ops => runRecOps (applyRecOp r op) ops

/-- A dynamically typed argument to `AddressBook.add_record`: either a
`Record` or some other object. -/
inductive PyValue where
  | record (r : Record)
  | other

/-- The address book: insertion-ordered name-to-record mapping, as a Python
dict is. -/
def AddressBook := List (String × Record)

/-- Dict assignment `self.data[k] = v`: overwrite in place when the key is
present (the entry keeps its position), append otherwise. -/
def dictInsert : AddressBook → String → Record → AddressBook
  | [], k, v => [(k, v)]
  | (k0, v0) :: rest, k, v =>
    if k0 = k then (k0, v) :: rest else (k0, v0) :: dictInsert rest k v

/-- Source `AddressBook.add_record`: reject non-`Record` arguments, otherwise
store under the record's name. -/
def add_record (book : AddressBook) (v : PyValue) : Except String AddressBook :=
  match v with
  | .record r => .ok (dictInsert book r.name.value r)
  | .other => .error "Only Record objects can be added to the AddressBook."

/-- Source `AddressBook.find`: exact-key lookup. -/
def bookFind : AddressBook → String → Option Record
  | [], _ => none
  | (k, v) :: rest, name => if k = name then some v else bookFind rest name

/-- Source `AddressBook.delete`: remove the entry when present. -/
def bookDelete : AddressBook → String → AddressBook
  | [], _ => []
  | (k, v) :: rest, name => if k = name then rest else (k, v) :: bookDelete rest name

/-- The keys of the book, in insertion order. -/
def bookKeys (book : AddressBook) : List String :=
  book.map Prod.fst

/-- One mutating operation on the book, for reachability statements. -/
inductive BookOp where
  | add (v : PyValue)
  | delete (name : String)

/-- Applying one book operation; a raising `add_record` leaves the book as it
was. -/
def applyBookOp (book : AddressBook) : BookOp → AddressBook
  | .add v =>
    match add_record book v with
    | .ok b2 => b2
    | .error _ => book
  | .delete name => bookDelete book name

/-- A sequence of book operations applied in order. -/
def runBookOps (book : AddressBook) : List BookOp → AddressBook
  | [] => book
  | op :: ops => runBookOps (applyBookOp book op) ops

/-- Source `AddressBook.adjust_for_weekend`: Saturday moves 2 days, Sunday 1
day; the additions go through `date + timedelta(days=...)` and can raise at
the ordinal range limit. -/
def adjust_for_weekend (d : PyDate) : Except String PyDate :=
  if d.weekday = 5 then addDays d 2
  else if d.weekday = 6 then addDays d 1
  else .ok d

/-- The body of the `get_upcoming_birthdays` loop for one record: skip
birthday-less records; move the birthday to this year, roll to next year when
it already fell before today, weekend-shift, then the inclusive window check.
The upper bound `today + timedelta(days=days)` is only computed when
`today <= birthday_this_year` holds, as Python's chained comparison
short-circuits. Returns the entry to append, if any. -/
def upcomingStep (today : PyDate) (days : Int) (r : Record) :
    Except String (Option (String × String)) :=
  match r.birthday with
  | none => .ok none
  | some b =>
    match b.value.replaceYear today.year with
    | .error e => .error e
    | .ok d1 =>
      match (if pyDateLt d1 today then d1.replaceYear (today.year + 1) else .ok d1) with
      | .error e => .error e
      | .ok d2 =>
        match adjust_for_weekend d2 with
        | .error e => .error e
        | .ok d3 =>
          if pyDateLe today d3 then
            match addDays today days with
            | .error e => .error e
            | .ok hi =>
              if pyDateLe d3 hi then .ok (some (r.name.value, strftimeDMY d3)) else .ok none
          else .ok none

/-- Source `AddressBook.get_upcoming_birthdays`, with `today` passed in for
`datetime.now().date()`: iterate the book in insertion order, appending the
qualifying entries; the first raising record aborts the whole call. -/
def get_upcoming_birthdays (book : AddressBook) (today : PyDate) (days : Int) :
    Except String (List (String × String)) :=
  match book with
  | [] => .ok []
  | (_, r) :: rest =>
    match upcomingStep today days r with
    | .error e => .error e
    | .ok o =>
      match get_upcoming_birthdays rest today days with
      | .error e => .error e
      | .ok tail =>
        .ok (match o with
             | none => tail
             | some x => x :: tail)

/-- Modelled from the spec's words for claim comparison: this year's occurrence
of the birthday's month and day, rolled to next year's occurrence when it fell
before today. The spec presumes the occurrence exists; when it does not (the
February 29 edge case, where the code raises) this totalisation returns none. -/
def specOccurrence (bd today : PyDate) : Option PyDate :=
  match bd.replaceYear today.year with
  | .error _ => none
  | .ok d1 =>
    if pyDateLt d1 today then
      match d1.replaceYear (today.year + 1) with
      | .error _ => none
      | .ok d2 => some d2
    else some d1

/-- Modelled from the spec's words: add 2 days to a Saturday occurrence and 1
day to a Sunday occurrence; none when the shifted date leaves the supported
range (where the code raises). -/
def specWeekendShift (d : PyDate) : Option PyDate :=
  match adjust_for_weekend d with
  | .ok d2 => some d2
  | .error _ => none

/-- Modelled from the spec's words, the decision for one record: records with a
birthday set contribute their possibly-shifted occurrence exactly when it lies
in the inclusive window from today to today plus the given number of days. -/
def specEntry (today : PyDate) (days : Int) (r : Record) : Option (String × String) :=
  match r.birthday with
  | none => none
  | some b =>
    match specOccurrence b.value today with
    | none => none
    | some occ =>
      match specWeekendShift occ with
      | none => none
      | some sh =>
        if pyDateLe today sh then
          match addDays today days with
          | .error _ => none
          | .ok hi => if pyDateLe sh hi then some (r.name.value, strftimeDMY sh) else none
        else none

/-- Modelled from the spec's words: the (name, formatted-date) pairs of the
qualifying records, in the book's insertion order. -/
def specUpcomingBirthdays (book : AddressBook) (today : PyDate) (days : Int) :
    List (String × String) :=
  book.filterMap (fun e => specEntry today days e.snd)

/-- The phone format of the source guard: exactly ten characters, all Python
digits. -/
def isValidPhoneStr (s : String) : Bool :=
  decide (s.length = 10) && pyStrIsdigit s

/-- An operation whose edit, if it is one, writes a string that itself passes
the phone format check. -/
def editOpValid : RecOp → Bool
  | .editPhone _ nw => isValidPhoneStr nw
  | _ => true

/-- Modelled from the spec's words: the whole string matches
`\d{2}\.\d{2}\.\d{4}` read as day.month.year (digits taken as decimal digits)
and denotes a valid calendar date. -/
def fullPatternValid (s : String) : Bool :=
  match s.data with
  | [a, b, p1, c, d, p2, e, f, g, h] =>
    decide (p1 = '.' ∧ p2 = '.') && isD a && isD b && isD c && isD d &&
    isD e && isD f && isD g && isD h &&
    (mkDate (((charVal e * 10 + charVal f) * 10 + charVal g) * 10 + charVal h)
      (charVal c * 10 + charVal d) (charVal a * 10 + charVal b)).isOk
  | _ => false

/-! Helper lemmas. -/

deriving instance DecidableEq for Except

/-- Characters are determined by their code points. -/
theorem char_toNat_inj {a b : Char} (h : a.toNat = b.toNat) : a = b := by
  have h1 : Char.ofNat a.toNat = Char.ofNat b.toNat := by rw [h]
  rwa [Char.ofNat_toNat, Char.ofNat_toNat] at h1

/-! Claim C10. -/

/-- C10: constructing a Name succeeds for every string, including the empty
string, stores it unmodified, and a fresh Record carries exactly that name
with no phones and no birthday; in particular a Record with the empty name
exists. -/
theorem c10_name_no_validation :
    (∀ s : String, (mkName s).value = s ∧
      mkRecord s = { name := ⟨s⟩, phones := [], birthday := none }) ∧
    (mkRecord "").name.value = "" :=
  ⟨fun _ => ⟨rfl, rfl⟩, rfl⟩

/-! Claim C4. -/

/-- C4 counterexample: the ten-character string of superscript-two characters
is accepted by the Phone constructor (Python `str.isdigit` classifies U+00B2
as a digit), yet none of its characters is a decimal digit, refuting
"succeeds iff every character is a decimal digit". -/
theorem c4_counterexample :
    mkPhone "²²²²²²²²²²" = .ok ⟨"²²²²²²²²²²"⟩ ∧
    "²²²²²²²²²²".length = 10 ∧
    "²²²²²²²²²²".data.all isD = false := by
  refine ⟨?_, by decide, by decide⟩
  unfold mkPhone
  rw [if_pos (by decide)]

/-- C4 amended: the Phone constructor succeeds exactly when the value has ten
characters all of which Python's `str.isdigit` accepts (decimal digits and
also other digit characters such as superscripts); on success the stored value
is the string itself and rendering returns the identical string; otherwise it
fails with the invalid-phone message. -/
theorem c4_phone_characterization (value : String) :
    ((∃ p, mkPhone value = .ok p) ↔ (value.length = 10 ∧ pyStrIsdigit value = true)) ∧
    (∀ p, mkPhone value = .ok p → p.value = value ∧ phoneStr p = value) ∧
    (¬(value.length = 10 ∧ pyStrIsdigit value = true) →
      mkPhone value = .error "Invalid phone number format: must be exactly 10 digits") := by
  by_cases h : value.length = 10 ∧ pyStrIsdigit value = true
  · refine ⟨⟨fun _ => h, fun _ => ⟨⟨value⟩, by rw [mkPhone, if_pos h]⟩⟩, ?_, fun hn => absurd h hn⟩
    intro p hp
    rw [mkPhone, if_pos h] at hp
    cases hp
    exact ⟨rfl, rfl⟩
  · refine ⟨⟨?_, fun hc => absurd hc h⟩, fun p hp => ?_, fun _ => by rw [mkPhone, if_neg h]⟩
    · rintro ⟨p, hp⟩
      rw [mkPhone, if_neg h] at hp
      cases hp
    · rw [mkPhone, if_neg h] at hp
      cases hp

/-- C4 witness: concrete instances of the amended characterization. -/
theorem c4_witness :
    mkPhone "0123456789" = .ok ⟨"0123456789"⟩ ∧
    phoneStr ⟨"0123456789"⟩ = "0123456789" ∧
    mkPhone "12345" = .error "Invalid phone number format: must be exactly 10 digits" := by
  have hok := (c4_phone_characterization "0123456789").1.mpr (by decide)
  obtain ⟨p, hp⟩ := hok
  have hv := (c4_phone_characterization "0123456789").2.1 p hp
  have herr := (c4_phone_characterization "12345").2.2 (by decide)
  refine ⟨?_, hv.2 ▸ ?_, herr⟩
  · have : p = ⟨"0123456789"⟩ := by
      cases p
      simp_all [phoneStr]
    rwa [this] at hp
  · rfl

/-! Claim C9. -/

/-- C9: when the birthday string fails validation, add_birthday raises that
validation error and the record is left completely unchanged (the assignment
in the source happens only after a successful construction). -/
theorem c9_add_birthday_atomic (r : Record) (s e : String)
    (h : mkBirthday s = .error e) :
    r.add_birthday s = .error e ∧ applyRecOp r (RecOp.addBirthday s) = r := by
  constructor
  · rw [Record.add_birthday, h]
  · rw [applyRecOp, Record.add_birthday, h]

/-- C9 witness: a record with a name, a phone and a stored birthday is
untouched by an add_birthday with an invalid date string. -/
theorem c9_witness :
    Record.add_birthday
        { name := ⟨"bob"⟩, phones := [⟨"1234567890"⟩], birthday := some ⟨⟨1990, 6, 10⟩⟩ }
        "31.02.2000" = .error "Invalid date format. Use DD.MM.YYYY" ∧
    applyRecOp
        { name := ⟨"bob"⟩, phones := [⟨"1234567890"⟩], birthday := some ⟨⟨1990, 6, 10⟩⟩ }
        (RecOp.addBirthday "31.02.2000") =
      { name := ⟨"bob"⟩, phones := [⟨"1234567890"⟩], birthday := some ⟨⟨1990, 6, 10⟩⟩ } :=
  c9_add_birthday_atomic _ _ _ (by decide)

/-! Claim C8. -/

/-- C8: a book holding a February 29 birthday, queried when the relevant
February has no 29th, makes get_upcoming_birthdays raise the date error
instead of returning a list: the replace of the year fails and the exception
propagates out of the operation. -/
theorem c8_feb29_error :
    get_upcoming_birthdays
        [("lev", { name := ⟨"lev"⟩, phones := [], birthday := some ⟨⟨2000, 2, 29⟩⟩ })]
        ⟨2023, 1, 1⟩ 7 =
      .error "day is out of range for month" := by
  decide

/-! Claim C1. -/

theorem mkPhone_ok_valid {s : String} {p : Phone} (h : mkPhone s = .ok p) :
    isValidPhoneStr p.value = true := by
  by_cases hc : s.length = 10 ∧ pyStrIsdigit s = true
  · rw [mkPhone, if_pos hc] at h
    cases h
    simp [isValidPhoneStr, hc.1, hc.2]
  · rw [mkPhone, if_neg hc] at h
    cases h

theorem mem_removeFirstPhone {ps : List Phone} {s : String} {q : Phone}
    (h : q ∈ removeFirstPhone ps s) : q ∈ ps := by
  induction ps with
  | nil => simp [removeFirstPhone] at h
  | cons p rest ih =>
    rw [removeFirstPhone] at h
    by_cases hp : p.value = s
    · rw [if_pos hp] at h
      exact List.mem_cons_of_mem p h
    · rw [if_neg hp] at h
      rcases List.mem_cons.mp h with h1 | h1
      · exact h1 ▸ List.mem_cons_self p rest
      · exact List.mem_cons_of_mem p (ih h1)

theorem mem_replaceFirstPhone {ps : List Phone} {old nw : String} {q : Phone}
    (h : q ∈ replaceFirstPhone ps old nw) : q ∈ ps ∨ q = ⟨nw⟩ := by
  induction ps with
  | nil => simp [replaceFirstPhone] at h
  | cons p rest ih =>
    rw [replaceFirstPhone] at h
    by_cases hp : p.value = old
    · rw [if_pos hp] at h
      rcases List.mem_cons.mp h with h1 | h1
      · exact Or.inr h1
      · exact Or.inl (List.mem_cons_of_mem p h1)
    · rw [if_neg hp] at h
      rcases List.mem_cons.mp h with h1 | h1
      · exact Or.inl (h1 ▸ List.mem_cons_self p rest)
      · rcases ih h1 with h2 | h2
        · exact Or.inl (List.mem_cons_of_mem p h2)
        · exact Or.inr h2

theorem applyRecOp_phones_valid {r : Record} {op : RecOp}
    (hop : editOpValid op = true)
    (hr : ∀ p ∈ r.phones, isValidPhoneStr p.value = true) :
    ∀ p ∈ (applyRecOp r op).phones, isValidPhoneStr p.value = true := by
  intro q hq
  cases op with
  | addPhone s =>
    rw [applyRecOp] at hq
    cases hmk : mkPhone s with
    | ok p2 =>
      rw [Record.add_phone, hmk] at hq
      simp only at hq
      rcases List.mem_append.mp hq with h1 | h1
      · exact hr q h1
      · rcases List.mem_singleton.mp h1 with rfl
        exact mkPhone_ok_valid hmk
    | error e =>
      rw [Record.add_phone, hmk] at hq
      exact hr q hq
  | removePhone s =>
    rw [applyRecOp, Record.remove_phone] at hq
    exact hr q (mem_removeFirstPhone hq)
  | editPhone old nw =>
    rw [applyRecOp] at hq
    rw [Record.edit_phone] at hq
    cases hf : Record.find_phone r old with
    | some p2 =>
      rw [hf] at hq
      simp only at hq
      rcases mem_replaceFirstPhone hq with h1 | h1
      · exact hr q h1
      · rw [h1]
        exact hop
    | none =>
      rw [hf] at hq
      exact hr q hq
  | findPhone s =>
    rw [applyRecOp] at hq
    exact hr q hq
  | addBirthday s =>
    rw [applyRecOp] at hq
    cases hmk : mkBirthday s with
    | ok b =>
      rw [Record.add_birthday, hmk] at hq
      exact hr q hq
    | error e =>
      rw [Record.add_birthday, hmk] at hq
      exact hr q hq

theorem runRecOps_phones_valid {r : Record} {ops : List RecOp}
    (hops : ops.all editOpValid = true)
    (hr : ∀ p ∈ r.phones, isValidPhoneStr p.value = true) :
    ∀ p ∈ (runRecOps r ops).phones, isValidPhoneStr p.value = true := by
  induction ops generalizing r with
  | nil => exact hr
  | cons op rest ih =>
    rw [List.all_cons, Bool.and_eq_true] at hops
    exact ih hops.2 (applyRecOp_phones_valid hops.1 hr)

/-- C1 counterexample: from a fresh record, add the phone "1234567890" and
then successfully edit it to "hello"; the resulting phone list stores the
five-character non-digit string "hello", refuting the claimed ten-digit
invariant (edit_phone writes the raw string without validation). -/
theorem c1_counterexample :
    (runRecOps (mkRecord "Bob")
        [RecOp.addPhone "1234567890", RecOp.editPhone "1234567890" "hello"]).phones.map
        Phone.value = ["hello"] ∧
    "hello".length = 5 := by
  constructor
  · decide
  · decide

/-- C1 amended: along any sequence of core operations from a fresh record in
which every edit_phone writes a string that itself passes the phone format
check, every stored phone string has exactly ten characters, all Python
digits. (The original claim fails because edit_phone does not validate; it is
restored under this hypothesis on the edited-in strings.) -/
theorem c1_phones_valid_of_valid_edits (name : String) (ops : List RecOp)
    (hops : ops.all editOpValid = true) :
    ∀ p ∈ (runRecOps (mkRecord name) ops).phones, isValidPhoneStr p.value = true := by
  refine runRecOps_phones_valid hops ?_
  intro p hp
  simp [mkRecord] at hp

/-- C1 witness: a concrete add-then-valid-edit run keeps the invariant. -/
theorem c1_witness :
    ([RecOp.addPhone "1234567890",
        RecOp.editPhone "1234567890" "0987654321"].all editOpValid = true) ∧
    isValidPhoneStr (Phone.mk "0987654321").value = true :=
  ⟨by decide,
   c1_phones_valid_of_valid_edits "Ann"
     [RecOp.addPhone "1234567890", RecOp.editPhone "1234567890" "0987654321"]
     (by decide) ⟨"0987654321"⟩ (by decide)⟩

/-! Claim C2. -/

theorem find_phone_first {pre post : List Phone} {p : Phone} {old : String}
    (hpre : ∀ q ∈ pre, q.value ≠ old) (hp : p.value = old) :
    (pre ++ p :: post).find? (fun q => q.value == old) = some p := by
  induction pre with
  | nil => simp [List.find?, hp]
  | cons q rest ih =>
    have hq : q.value ≠ old := hpre q (List.mem_cons_self q rest)
    rw [List.cons_append, List.find?]
    simp only [beq_eq_false_iff_ne.mpr hq]
    exact ih fun q2 hq2 => hpre q2 (List.mem_cons_of_mem q hq2)

theorem replaceFirstPhone_append {pre post : List Phone} {p : Phone} {old nw : String}
    (hpre : ∀ q ∈ pre, q.value ≠ old) (hp : p.value = old) :
    replaceFirstPhone (pre ++ p :: post) old nw = pre ++ Phone.mk nw :: post := by
  induction pre with
  | nil => simp [replaceFirstPhone, hp]
  | cons q rest ih =>
    have hq : q.value ≠ old := hpre q (List.mem_cons_self q rest)
    rw [List.cons_append, replaceFirstPhone, if_neg hq, List.cons_append]
    rw [ih fun q2 hq2 => hpre q2 (List.mem_cons_of_mem q hq2)]

/-- C2 counterexample: on a record holding "1234567890", edit_phone to the
non-phone string "abc" succeeds and stores "abc", refuting "validates that
new is a legal Phone format". -/
theorem c2_counterexample :
    Record.edit_phone { name := ⟨"a"⟩, phones := [⟨"1234567890"⟩], birthday := none }
        "1234567890" "abc" =
      .ok { name := ⟨"a"⟩, phones := [⟨"abc"⟩], birthday := none } ∧
    isValidPhoneStr "abc" = false := by
  constructor
  · decide
  · decide

/-- C2 amended: when no stored phone equals old, edit_phone fails with the
phone-not-found error and the record is unchanged; when the first match sits
between pre and post, edit_phone succeeds and replaces exactly that phone's
value by the new string, without validating it, preserving its position. -/
theorem c2_edit_phone_characterization (r : Record) (old nw : String) :
    (r.find_phone old = none →
      r.edit_phone old nw = .error "Phone not found" ∧
      applyRecOp r (RecOp.editPhone old nw) = r) ∧
    (∀ pre p post, r.phones = pre ++ p :: post → p.value = old →
      (∀ q ∈ pre, q.value ≠ old) →
      r.edit_phone old nw = .ok { r with phones := pre ++ Phone.mk nw :: post }) := by
  constructor
  · intro hnone
    constructor
    · rw [Record.edit_phone, hnone]
    · rw [applyRecOp, Record.edit_phone, hnone]
  · intro pre p post hsplit hp hpre
    have hfind : r.find_phone old = some p := by
      rw [Record.find_phone, hsplit]
      exact find_phone_first hpre hp
    rw [Record.edit_phone, hfind, hsplit, replaceFirstPhone_append hpre hp]

/-- C2 witness: the specification's example record, both the successful edit
preserving the position and the failing edit leaving the record unchanged. -/
theorem c2_witness :
    Record.edit_phone { name := ⟨"x"⟩, phones := [⟨"1234567890"⟩], birthday := none }
        "1234567890" "0987654321" =
      .ok { name := ⟨"x"⟩, phones := [⟨"0987654321"⟩], birthday := none } ∧
    Record.edit_phone { name := ⟨"x"⟩, phones := [⟨"1234567890"⟩], birthday := none }
        "0000000000" "1111111111" = .error "Phone not found" ∧
    applyRecOp { name := ⟨"x"⟩, phones := [⟨"1234567890"⟩], birthday := none }
        (RecOp.editPhone "0000000000" "1111111111") =
      { name := ⟨"x"⟩, phones := [⟨"1234567890"⟩], birthday := none } := by
  refine ⟨?_, ?_, ?_⟩
  · exact (c2_edit_phone_characterization
      { name := ⟨"x"⟩, phones := [⟨"1234567890"⟩], birthday := none } "1234567890"
      "0987654321").2 [] ⟨"1234567890"⟩ [] rfl rfl (by intro q hq; cases hq)
  · exact ((c2_edit_phone_characterization
      { name := ⟨"x"⟩, phones := [⟨"1234567890"⟩], birthday := none } "0000000000"
      "1111111111").1 (by decide)).1
  · exact ((c2_edit_phone_characterization
      { name := ⟨"x"⟩, phones := [⟨"1234567890"⟩], birthday := none } "0000000000"
      "1111111111").1 (by decide)).2

/-! Claim C7. -/

theorem bookKeys_dictInsert (b : AddressBook) (k : String) (v : Record) :
    bookKeys (dictInsert b k v) = if k ∈ bookKeys b then bookKeys b else bookKeys b ++ [k] := by
  induction b with
  | nil => simp [dictInsert, bookKeys]
  | cons e rest ih =>
    obtain ⟨k0, v0⟩ := e
    rw [dictInsert]
    by_cases hk : k0 = k
    · subst hk
      simp [bookKeys]
    · rw [if_neg hk]
      have hcons : bookKeys ((k0, v0) :: dictInsert rest k v) =
          k0 :: bookKeys (dictInsert rest k v) := rfl
      have hcons2 : bookKeys ((k0, v0) :: rest) = k0 :: bookKeys rest := rfl
      by_cases hmem : k ∈ bookKeys rest
      · have hmem2 : k ∈ bookKeys ((k0, v0) :: rest) := by
          rw [hcons2]
          exact List.mem_cons_of_mem k0 hmem
        rw [if_pos hmem2, hcons, hcons2, ih, if_pos hmem]
      · have hmem2 : k ∉ bookKeys ((k0, v0) :: rest) := by
          rw [hcons2]
          intro hx
          rcases List.mem_cons.mp hx with hx | hx
          · exact hk hx.symm
          · exact hmem hx
        rw [if_neg hmem2, hcons, hcons2, ih, if_neg hmem]
        rfl

theorem nodup_dictInsert {b : AddressBook} (k : String) (v : Record)
    (h : (bookKeys b).Nodup) : (bookKeys (dictInsert b k v)).Nodup := by
  rw [bookKeys_dictInsert]
  by_cases hmem : k ∈ bookKeys b
  · rwa [if_pos hmem]
  · rw [if_neg hmem]
    simpa [List.nodup_append] using ⟨h, hmem⟩

theorem bookKeys_delete_sublist (b : AddressBook) (name : String) :
    (bookKeys (bookDelete b name)).Sublist (bookKeys b) := by
  induction b with
  | nil => simp [bookDelete, bookKeys]
  | cons e rest ih =>
    obtain ⟨k0, v0⟩ := e
    rw [bookDelete]
    by_cases hk : k0 = name
    · rw [if_pos hk]
      exact (List.sublist_cons_self k0 (bookKeys rest)).trans (by simp [bookKeys])
    · rw [if_neg hk]
      simpa [bookKeys] using List.Sublist.cons₂ k0 ih

theorem nodup_applyBookOp {b : AddressBook} (op : BookOp)
    (h : (bookKeys b).Nodup) : (bookKeys (applyBookOp b op)).Nodup := by
  cases op with
  | add v =>
    cases v with
    | record r =>
      rw [applyBookOp, add_record]
      exact nodup_dictInsert r.name.value r h
    | other =>
      rw [applyBookOp, add_record]
      exact h
  | delete name =>
    rw [applyBookOp]
    exact (bookKeys_delete_sublist b name).nodup h

theorem nodup_runBookOps {b : AddressBook} (ops : List BookOp)
    (h : (bookKeys b).Nodup) : (bookKeys (runBookOps b ops)).Nodup := by
  induction ops generalizing b with
  | nil => exact h
  | cons op rest ih => exact ih (nodup_applyBookOp op h)

theorem filter_eq_nil_of_not_mem {b : AddressBook} {k : String}
    (h : k ∉ bookKeys b) : b.filter (fun e => e.fst == k) = [] := by
  induction b with
  | nil => rfl
  | cons e rest ih =>
    obtain ⟨k0, v0⟩ := e
    have hcons : bookKeys ((k0, v0) :: rest) = k0 :: bookKeys rest := rfl
    have h1 : k0 ≠ k := by
      intro hk
      apply h
      rw [hcons, ← hk]
      exact List.mem_cons_self k0 (bookKeys rest)
    have h2 : k ∉ bookKeys rest := by
      intro hk
      apply h
      rw [hcons]
      exact List.mem_cons_of_mem k0 hk
    simp only [List.filter]
    rw [show ((k0, v0).fst == k) = false from beq_eq_false_iff_ne.mpr h1]
    exact ih h2

theorem filter_dictInsert {b : AddressBook} (k : String) (v : Record)
    (h : (bookKeys b).Nodup) :
    (dictInsert b k v).filter (fun e => e.fst == k) = [(k, v)] := by
  induction b with
  | nil => simp [dictInsert]
  | cons e rest ih =>
    obtain ⟨k0, v0⟩ := e
    rw [dictInsert]
    have hnd := List.nodup_cons.mp (show (k0 :: bookKeys rest).Nodup from h)
    by_cases hk : k0 = k
    · subst hk
      simp only [List.filter, beq_self_eq_true]
      rw [filter_eq_nil_of_not_mem hnd.1]
    · rw [if_neg hk]
      simp only [List.filter]
      rw [show ((k0, v0).fst == k) = false from beq_eq_false_iff_ne.mpr hk]
      exact ih hnd.2

/-- C7: add_record rejects a non-Record argument with the type-mismatch error
and leaves the book unchanged; every book reachable by add/delete operations
from the empty book has pairwise distinct name keys; and on a book with
distinct keys, adding two records with the same name in a row leaves exactly
one entry under that name, holding the latest record. -/
theorem c7_add_record :
    (∀ b : AddressBook,
      add_record b PyValue.other = .error "Only Record objects can be added to the AddressBook." ∧
      applyBookOp b (BookOp.add PyValue.other) = b) ∧
    (∀ ops : List BookOp, (bookKeys (runBookOps [] ops)).Nodup) ∧
    (∀ (b : AddressBook) (r1 r2 : Record) (b1 b2 : AddressBook),
      (bookKeys b).Nodup → r1.name.value = r2.name.value →
      add_record b (PyValue.record r1) = .ok b1 →
      add_record b1 (PyValue.record r2) = .ok b2 →
      b2.filter (fun e => e.fst == r2.name.value) = [(r2.name.value, r2)]) := by
  refine ⟨fun b => ⟨rfl, rfl⟩, fun ops => nodup_runBookOps ops (by simp [bookKeys]), ?_⟩
  intro b r1 r2 b1 b2 hnd hname h1 h2
  rw [add_record] at h1 h2
  cases h1
  cases h2
  exact filter_dictInsert r2.name.value r2 (hname ▸ nodup_dictInsert r1.name.value r1 hnd)

/-- C7 witness: overwriting a same-named record concretely, with the
reachability and error parts instantiated. -/
theorem c7_witness :
    add_record [] PyValue.other = .error "Only Record objects can be added to the AddressBook." ∧
    (bookKeys (runBookOps []
      [BookOp.add (PyValue.record (mkRecord "ann")),
       BookOp.add (PyValue.record { name := ⟨"ann"⟩, phones := [⟨"1234567890"⟩], birthday := none })])).Nodup ∧
    (dictInsert (dictInsert [] "ann" (mkRecord "ann")) "ann"
        { name := ⟨"ann"⟩, phones := [⟨"1234567890"⟩], birthday := none }).filter
        (fun e => e.fst == "ann") =
      [("ann", { name := ⟨"ann"⟩, phones := [⟨"1234567890"⟩], birthday := none })] := by
  refine ⟨(c7_add_record.1 []).1, c7_add_record.2.1 _, ?_⟩
  exact c7_add_record.2.2 [] (mkRecord "ann")
    { name := ⟨"ann"⟩, phones := [⟨"1234567890"⟩], birthday := none } _ _
    (by simp [bookKeys]) rfl rfl rfl

/-! Claim C3. -/

theorem upcomingStep_ok {today : PyDate} {days : Int} {r : Record}
    {o : Option (String × String)}
    (h : upcomingStep today days r = .ok o) : o = specEntry today days r := by
  rw [upcomingStep] at h
  cases hb : r.birthday with
  | none =>
    rw [hb] at h
    cases h
    simp [specEntry, hb]
  | some b =>
    rw [hb] at h
    dsimp only at h
    cases h1 : PyDate.replaceYear b.value today.year with
    | error e =>
      rw [h1] at h
      cases h
    | ok d1 =>
      rw [h1] at h
      dsimp only at h
      cases hlt : pyDateLt d1 today with
      | true =>
        rw [if_pos hlt] at h
        cases hroll : PyDate.replaceYear d1 (today.year + 1) with
        | error e =>
          rw [hroll] at h
          cases h
        | ok d2 =>
          rw [hroll] at h
          dsimp only at h
          cases h3 : adjust_for_weekend d2 with
          | error e =>
            rw [h3] at h
            cases h
          | ok d3 =>
            rw [h3] at h
            dsimp only at h
            cases hle : pyDateLe today d3 with
            | true =>
              rw [if_pos hle] at h
              cases h4 : addDays today days with
              | error e =>
                rw [h4] at h
                cases h
              | ok hi =>
                rw [h4] at h
                dsimp only at h
                cases hle2 : pyDateLe d3 hi with
                | true =>
                  rw [if_pos hle2] at h
                  cases h
                  simp [specEntry, specOccurrence, specWeekendShift, hb, h1, hlt, hroll, h3, hle, h4, hle2]
                | false =>
                  rw [if_neg (by simp [hle2])] at h
                  cases h
                  simp [specEntry, specOccurrence, specWeekendShift, hb, h1, hlt, hroll, h3, hle, h4, hle2]
            | false =>
              rw [if_neg (by simp [hle])] at h
              cases h
              simp [specEntry, specOccurrence, specWeekendShift, hb, h1, hlt, hroll, h3, hle]
      | false =>
        rw [if_neg (by simp [hlt])] at h
        dsimp only at h
        cases h3 : adjust_for_weekend d1 with
        | error e =>
          rw [h3] at h
          cases h
        | ok d3 =>
          rw [h3] at h
          dsimp only at h
          cases hle : pyDateLe today d3 with
          | true =>
            rw [if_pos hle] at h
            cases h4 : addDays today days with
            | error e =>
              rw [h4] at h
              cases h
            | ok hi =>
              rw [h4] at h
              dsimp only at h
              cases hle2 : pyDateLe d3 hi with
              | true =>
                rw [if_pos hle2] at h
                cases h
                simp [specEntry, specOccurrence, specWeekendShift, hb, h1, hlt, h3, hle, h4, hle2]
              | false =>
                rw [if_neg (by simp [hle2])] at h
                cases h
                simp [specEntry, specOccurrence, specWeekendShift, hb, h1, hlt, h3, hle, h4, hle2]
          | false =>
            rw [if_neg (by simp [hle])] at h
            cases h
            simp [specEntry, specOccurrence, specWeekendShift, hb, h1, hlt, h3, hle]

theorem specUpcomingBirthdays_cons (k : String) (r : Record) (rest : AddressBook)
    (today : PyDate) (days : Int) :
    specUpcomingBirthdays ((k, r) :: rest) today days =
      (match specEntry today days r with
       | none => specUpcomingBirthdays rest today days
       | some x => x :: specUpcomingBirthdays rest today days) := by
  rw [specUpcomingBirthdays, List.filterMap]
  cases specEntry today days r with
  | none => rfl
  | some x => rfl

/-- C3 counterexample: a book holding a February 29 birthday queried in March
of a leap year rolls to the next, non-leap year; the year replacement raises,
so no result list of the described form is returned. -/
theorem c3_counterexample :
    get_upcoming_birthdays
        [("mila", { name := ⟨"mila"⟩, phones := [], birthday := some ⟨⟨1996, 2, 29⟩⟩ })]
        ⟨2024, 3, 10⟩ 7 =
      .error "day is out of range for month" := by
  decide

/-- C3 amended: whenever get_upcoming_birthdays completes without raising
(which it fails to do exactly when a stored February 29 birthday meets a
non-leap target year, or the date arithmetic leaves the supported range), the
returned list is precisely the specification's description: the records with a
birthday set whose this-year occurrence, rolled to next year when it fell
before today and shifted off weekends, lies in the inclusive window, listed as
(name, formatted-date) pairs in the book's insertion order. -/
theorem c3_upcoming_ok_characterization (book : AddressBook) (today : PyDate) (days : Int)
    (res : List (String × String))
    (h : get_upcoming_birthdays book today days = .ok res) :
    res = specUpcomingBirthdays book today days := by
  induction book generalizing res with
  | nil =>
    rw [get_upcoming_birthdays] at h
    cases h
    rfl
  | cons entry rest ih =>
    obtain ⟨k, r⟩ := entry
    rw [get_upcoming_birthdays] at h
    cases hs : upcomingStep today days r with
    | error e =>
      rw [hs] at h
      cases h
    | ok o =>
      rw [hs] at h
      dsimp only at h
      cases ht : get_upcoming_birthdays rest today days with
      | error e =>
        rw [ht] at h
        cases h
      | ok tail =>
        rw [ht] at h
        dsimp only at h
        cases h
        rw [specUpcomingBirthdays_cons, ← upcomingStep_ok hs, ← ih tail ht]

/-- C3 witness: the specification's own example, a birthday of 10.06.1990
queried on Wednesday 05.06.2024 with a 7-day window, is returned as
10.06.2024, and equals the spec-side description. -/
theorem c3_witness :
    get_upcoming_birthdays
        [("alice", { name := ⟨"alice"⟩, phones := [], birthday := some ⟨⟨1990, 6, 10⟩⟩ })]
        ⟨2024, 6, 5⟩ 7 = .ok [("alice", "10.06.2024")] ∧
    [("alice", "10.06.2024")] =
      specUpcomingBirthdays
        [("alice", { name := ⟨"alice"⟩, phones := [], birthday := some ⟨⟨1990, 6, 10⟩⟩ })]
        ⟨2024, 6, 5⟩ 7 :=
  ⟨by decide,
   c3_upcoming_ok_characterization _ _ _ _ (by decide)⟩

/-! Claims C5 and C6: helper lemmas about the pattern search and the parser. -/

theorem isD_toNat {c : Char} (h : isD c = true) : 48 ≤ c.toNat ∧ c.toNat ≤ 57 := by
  simpa [isD] using h

theorem matchTen_none_of_short {cs : List Char} (h : cs.length ≤ 9) : matchTen cs = none := by
  rcases cs with _ | ⟨a, _ | ⟨b, _ | ⟨p1, _ | ⟨c, _ | ⟨d, _ | ⟨p2, _ | ⟨e, _ | ⟨f, _ | ⟨g, _ | ⟨h10, rest⟩⟩⟩⟩⟩⟩⟩⟩⟩⟩
  · rfl
  · rfl
  · rfl
  · rfl
  · rfl
  · rfl
  · rfl
  · rfl
  · rfl
  · rfl
  · simp only [List.length_cons] at h
    omega

theorem searchBD_short {cs : List Char} (h : cs.length ≤ 9) (prev : Option Char) :
    searchBD prev cs = false := by
  induction cs generalizing prev with
  | nil =>
    rw [searchBD]
    simp [hitAt, matchTen]
  | cons c rest ih =>
    rw [searchBD]
    have hr : rest.length ≤ 9 := by
      rw [List.length_cons] at h
      omega
    simp [hitAt, matchTen_none_of_short h, ih hr]

theorem parseDayCPy_inv {cs : List Char} {d : Nat} {r : List Char}
    (h : parseDayCPy cs = some (d, r)) :
    (∃ c1 c2 rest, cs = c1 :: c2 :: rest ∧ r = rest ∧ isD c1 = true ∧ isD c2 = true ∧
      d = charVal c1 * 10 + charVal c2 ∧ 1 ≤ d ∧ d ≤ 31) ∨
    (∃ c1, cs = c1 :: r ∧ isD c1 = true ∧ d = charVal c1 ∧ 1 ≤ d ∧ d ≤ 9) := by
  rcases cs with _ | ⟨c1, _ | ⟨c2, rest⟩⟩
  · cases h
  · rw [parseDayCPy] at h
    split_ifs at h with g1
    · cases h
      refine Or.inr ⟨c1, rfl, ?_, rfl, ?_, ?_⟩ <;>
        (try simp only [isD, charVal, decide_eq_true_eq]) <;> omega
  · rw [parseDayCPy] at h
    split_ifs at h with g1 g2 g3 g4
    · obtain ⟨g1a, g1b⟩ := g1
      rw [Option.some.injEq, Prod.mk.injEq] at h
      obtain ⟨hd, hr⟩ := h
      subst hr
      simp only [charVal] at hd
      refine Or.inl ⟨c1, c2, rest, rfl, rfl, ?_, ?_, hd.symm, ?_, ?_⟩ <;>
        (try simp only [isD, charVal, decide_eq_true_eq]) <;> omega
    · obtain ⟨g2a, g2b⟩ := g2
      have h2 := isD_toNat g2b
      rw [Option.some.injEq, Prod.mk.injEq] at h
      obtain ⟨hd, hr⟩ := h
      subst hr
      simp only [charVal] at hd
      refine Or.inl ⟨c1, c2, rest, rfl, rfl, ?_, g2b, hd.symm, ?_, ?_⟩ <;>
        (try simp only [isD, charVal, decide_eq_true_eq]) <;> omega
    · obtain ⟨g3a, g3b⟩ := g3
      rw [Option.some.injEq, Prod.mk.injEq] at h
      obtain ⟨hd, hr⟩ := h
      subst hr
      simp only [charVal] at hd
      refine Or.inl ⟨c1, c2, rest, rfl, rfl, ?_, ?_, ?_, ?_, ?_⟩ <;>
        (try simp only [isD, charVal, decide_eq_true_eq]) <;> omega
    · rw [Option.some.injEq, Prod.mk.injEq] at h
      obtain ⟨hd, hr⟩ := h
      subst hr
      simp only [charVal] at hd
      refine Or.inr ⟨c1, rfl, ?_, hd.symm, ?_, ?_⟩ <;>
        (try simp only [isD, charVal, decide_eq_true_eq]) <;> omega

theorem parseMonthCPy_inv {cs : List Char} {m : Nat} {r : List Char}
    (h : parseMonthCPy cs = some (m, r)) :
    (∃ c1 c2 rest, cs = c1 :: c2 :: rest ∧ r = rest ∧ isD c1 = true ∧ isD c2 = true ∧
      m = charVal c1 * 10 + charVal c2 ∧ 1 ≤ m ∧ m ≤ 12) ∨
    (∃ c1, cs = c1 :: r ∧ isD c1 = true ∧ m = charVal c1 ∧ 1 ≤ m ∧ m ≤ 9) := by
  rcases cs with _ | ⟨c1, _ | ⟨c2, rest⟩⟩
  · cases h
  · rw [parseMonthCPy] at h
    split_ifs at h with g1
    cases h
    refine Or.inr ⟨c1, rfl, ?_, rfl, ?_, ?_⟩ <;>
      (try simp only [isD, charVal, decide_eq_true_eq]) <;> omega
  · rw [parseMonthCPy] at h
    split_ifs at h with g1 g2 g3
    · obtain ⟨g1a, g1b⟩ := g1
      rw [Option.some.injEq, Prod.mk.injEq] at h
      obtain ⟨hd, hr⟩ := h
      subst hr
      simp only [charVal] at hd
      refine Or.inl ⟨c1, c2, rest, rfl, rfl, ?_, ?_, ?_, ?_, ?_⟩ <;>
        (try simp only [isD, charVal, decide_eq_true_eq]) <;> omega
    · obtain ⟨g2a, g2b⟩ := g2
      rw [Option.some.injEq, Prod.mk.injEq] at h
      obtain ⟨hd, hr⟩ := h
      subst hr
      simp only [charVal] at hd
      refine Or.inl ⟨c1, c2, rest, rfl, rfl, ?_, ?_, ?_, ?_, ?_⟩ <;>
        (try simp only [isD, charVal, decide_eq_true_eq]) <;> omega
    · rw [Option.some.injEq, Prod.mk.injEq] at h
      obtain ⟨hd, hr⟩ := h
      subst hr
      simp only [charVal] at hd
      refine Or.inr ⟨c1, rfl, ?_, ?_, ?_, ?_⟩ <;>
        (try simp only [isD, charVal, decide_eq_true_eq]) <;> omega

theorem parseYear4_inv {cs : List Char} {y : Nat} {r : List Char}
    (h : parseYear4 cs = some (y, r)) :
    ∃ e f g h4, cs = e :: f :: g :: h4 :: r ∧ isD e = true ∧ isD f = true ∧
      isD g = true ∧ isD h4 = true ∧
      y = ((charVal e * 10 + charVal f) * 10 + charVal g) * 10 + charVal h4 := by
  rcases cs with _ | ⟨e, _ | ⟨f, _ | ⟨g, _ | ⟨h4, rest⟩⟩⟩⟩
  · cases h
  · cases h
  · cases h
  · cases h
  · rw [parseYear4] at h
    split_ifs at h with g1
    obtain ⟨ha, hb, hc, hdd⟩ := g1
    rw [Option.some.injEq, Prod.mk.injEq] at h
    obtain ⟨hy, hr⟩ := h
    subst hr
    exact ⟨e, f, g, h4, rfl, ha, hb, hc, hdd, hy.symm⟩

theorem strptimeDMY_inv {s : String} {dy mo yr : Nat}
    (h : strptimeDMY s = some (dy, mo, yr)) :
    (∃ a b c d e f g h8, s.data = [a, b, '.', c, d, '.', e, f, g, h8] ∧
      isD a = true ∧ isD b = true ∧ isD c = true ∧ isD d = true ∧
      isD e = true ∧ isD f = true ∧ isD g = true ∧ isD h8 = true ∧
      dy = charVal a * 10 + charVal b ∧ 1 ≤ dy ∧ dy ≤ 31 ∧
      mo = charVal c * 10 + charVal d ∧ 1 ≤ mo ∧ mo ≤ 12 ∧
      yr = ((charVal e * 10 + charVal f) * 10 + charVal g) * 10 + charVal h8) ∨
    s.data.length ≤ 9 := by
  rw [strptimeDMY] at h
  cases hp : parseDayCPy s.data with
  | none =>
    rw [hp] at h
    cases h
  | some pr =>
    obtain ⟨d0, r1⟩ := pr
    rw [hp] at h
    dsimp only at h
    cases r1 with
    | nil => cases h
    | cons cdot r2 =>
      dsimp only at h
      split_ifs at h with hdot
      subst hdot
      cases hm : parseMonthCPy r2 with
      | none =>
        rw [hm] at h
        cases h
      | some pm =>
        obtain ⟨m0, r3⟩ := pm
        rw [hm] at h
        dsimp only at h
        cases r3 with
        | nil => cases h
        | cons cdot2 r4 =>
          dsimp only at h
          split_ifs at h with hdot2
          subst hdot2
          cases hy : parseYear4 r4 with
          | none =>
            rw [hy] at h
            cases h
          | some py =>
            obtain ⟨y0, r5⟩ := py
            rw [hy] at h
            dsimp only at h
            split_ifs at h with hnil
            subst hnil
            rw [Option.some.injEq, Prod.mk.injEq, Prod.mk.injEq] at h
            obtain ⟨hdy, hmo, hyr⟩ := h
            subst hdy
            subst hmo
            subst hyr
            obtain ⟨e, f, g, h8, hr4, he, hf, hg, hh, hy0⟩ := parseYear4_inv hy
            rcases parseDayCPy_inv hp with
              ⟨a, b, rest1, hcs, hr1, ha, hb, hd0, hd0lo, hd0hi⟩ |
              ⟨a, hcs, ha, hd0, hd0lo, hd0hi⟩ <;>
            rcases parseMonthCPy_inv hm with
              ⟨c, d, rest2, hr2, hr3, hc, hd, hm0, hm0lo, hm0hi⟩ |
              ⟨c, hr2, hc, hm0, hm0lo, hm0hi⟩
            · refine Or.inl ⟨a, b, c, d, e, f, g, h8, ?_, ha, hb, hc, hd, he, hf, hg, hh,
                hd0, hd0lo, hd0hi, hm0, hm0lo, hm0hi, hy0⟩
              rw [hcs, ← hr1, hr2, ← hr3, hr4]
            · refine Or.inr ?_
              rw [hcs, ← hr1, hr2, hr4]
              simp
            · refine Or.inr ?_
              rw [hcs, hr2, ← hr3, hr4]
              simp
            · refine Or.inr ?_
              rw [hcs, hr2, hr4]
              simp

theorem parseDayCPy_two {c1 c2 : Char} (rest : List Char)
    (h1 : isD c1 = true) (h2 : isD c2 = true)
    (hlo : 1 ≤ charVal c1 * 10 + charVal c2) (hhi : charVal c1 * 10 + charVal c2 ≤ 31) :
    parseDayCPy (c1 :: c2 :: rest) = some (charVal c1 * 10 + charVal c2, rest) := by
  have hv1 := isD_toNat h1
  have hv2 := isD_toNat h2
  simp only [charVal] at hlo hhi
  rw [parseDayCPy]
  split_ifs with g1 g2 g3 g4
  · rfl
  · rfl
  · have h0 : charVal c1 = 0 := by
      simp only [charVal]
      omega
    rw [h0]
    simp
  · exfalso
    simp only [h2, and_true] at g2
    omega
  · exfalso
    simp only [h2, and_true] at g2
    omega

theorem parseMonthCPy_two {c1 c2 : Char} (rest : List Char)
    (h1 : isD c1 = true) (h2 : isD c2 = true)
    (hlo : 1 ≤ charVal c1 * 10 + charVal c2) (hhi : charVal c1 * 10 + charVal c2 ≤ 12) :
    parseMonthCPy (c1 :: c2 :: rest) = some (charVal c1 * 10 + charVal c2, rest) := by
  have hv1 := isD_toNat h1
  have hv2 := isD_toNat h2
  simp only [charVal] at hlo hhi
  rw [parseMonthCPy]
  split_ifs with g1 g2 g3
  · have h0 : charVal c1 = 1 := by
      simp only [charVal]
      omega
    rw [h0]
  · have h0 : charVal c1 = 0 := by
      simp only [charVal]
      omega
    rw [h0]
    simp
  · exfalso
    omega
  · exfalso
    omega

theorem parseYear4_four {e f g h8 : Char} (rest : List Char)
    (he : isD e = true) (hf : isD f = true) (hg : isD g = true) (hh : isD h8 = true) :
    parseYear4 (e :: f :: g :: h8 :: rest) =
      some (((charVal e * 10 + charVal f) * 10 + charVal g) * 10 + charVal h8, rest) := by
  rw [parseYear4, if_pos ⟨he, hf, hg, hh⟩]

theorem strptimeDMY_full {a b c d e f g h8 : Char} {s : String}
    (hs : s.data = [a, b, '.', c, d, '.', e, f, g, h8])
    (ha : isD a = true) (hb : isD b = true) (hc : isD c = true) (hd : isD d = true)
    (he : isD e = true) (hf : isD f = true) (hg : isD g = true) (hh : isD h8 = true)
    (hd1 : 1 ≤ charVal a * 10 + charVal b) (hd31 : charVal a * 10 + charVal b ≤ 31)
    (hm1 : 1 ≤ charVal c * 10 + charVal d) (hm12 : charVal c * 10 + charVal d ≤ 12) :
    strptimeDMY s = some (charVal a * 10 + charVal b, charVal c * 10 + charVal d,
      ((charVal e * 10 + charVal f) * 10 + charVal g) * 10 + charVal h8) := by
  rw [strptimeDMY, hs]
  rw [parseDayCPy_two _ ha hb hd1 hd31]
  dsimp only
  rw [if_pos rfl]
  rw [parseMonthCPy_two _ hc hd hm1 hm12]
  dsimp only
  rw [if_pos rfl]
  rw [parseYear4_four _ he hf hg hh]
  dsimp only
  rw [if_pos rfl]

theorem reSearchBirthday_full {a b c d e f g h8 : Char} {s : String}
    (hs : s.data = [a, b, '.', c, d, '.', e, f, g, h8])
    (ha : isD a = true) (hb : isD b = true) (hc : isD c = true) (hd : isD d = true)
    (he : isD e = true) (hf : isD f = true) (hg : isD g = true) (hh : isD h8 = true) :
    reSearchBirthday s = true := by
  rw [reSearchBirthday, hs, searchBD]
  have h1 : hitAt none [a, b, '.', c, d, '.', e, f, g, h8] = true := by
    simp [hitAt, matchTen, ha, hb, hc, hd, he, hf, hg, hh]
  rw [h1, Bool.true_or]

theorem daysInMonth_le_31 (y m : Nat) : daysInMonth y m ≤ 31 := by
  rw [daysInMonth]
  split_ifs <;> omega

theorem mkDate_ok_inv {y m d : Nat} {dt : PyDate} (h : mkDate y m d = .ok dt) :
    dt = ⟨y, m, d⟩ ∧ 1 ≤ y ∧ y ≤ 9999 ∧ 1 ≤ m ∧ m ≤ 12 ∧ 1 ≤ d ∧ d ≤ daysInMonth y m := by
  rw [mkDate] at h
  split_ifs at h with h1 h2 h3
  rw [Except.ok.injEq] at h
  refine ⟨h.symm, ?_, ?_, ?_, ?_, ?_, ?_⟩ <;> omega

theorem fullPatternValid_inv {s : String} (h : fullPatternValid s = true) :
    ∃ a b c d e f g h8, s.data = [a, b, '.', c, d, '.', e, f, g, h8] ∧
      isD a = true ∧ isD b = true ∧ isD c = true ∧ isD d = true ∧
      isD e = true ∧ isD f = true ∧ isD g = true ∧ isD h8 = true ∧
      (mkDate (((charVal e * 10 + charVal f) * 10 + charVal g) * 10 + charVal h8)
        (charVal c * 10 + charVal d) (charVal a * 10 + charVal b)).isOk = true := by
  rw [fullPatternValid] at h
  split at h
  · rename_i a b p1 c d p2 e f g h8 heq
    simp only [Bool.and_eq_true, decide_eq_true_eq] at h
    obtain ⟨⟨⟨⟨⟨⟨⟨⟨⟨⟨hdot1, hdot2⟩, ha⟩, hb⟩, hc⟩, hd⟩, he⟩, hf⟩, hg⟩, hh⟩, hvalid⟩ := h
    subst hdot1
    subst hdot2
    exact ⟨a, b, c, d, e, f, g, h8, heq, ha, hb, hc, hd, he, hf, hg, hh, hvalid⟩
  · cases h

theorem mkBirthday_of_fullPatternValid {s : String} (h : fullPatternValid s = true) :
    ∃ dy mo yr : Nat, mkBirthday s = .ok ⟨⟨yr, mo, dy⟩⟩ ∧ mkDate yr mo dy = .ok ⟨yr, mo, dy⟩ := by
  obtain ⟨a, b, c, d, e, f, g, h8, heq, ha, hb, hc, hd, he, hf, hg, hh, hvalid⟩ :=
    fullPatternValid_inv h
  cases hmk : mkDate (((charVal e * 10 + charVal f) * 10 + charVal g) * 10 + charVal h8)
      (charVal c * 10 + charVal d) (charVal a * 10 + charVal b) with
  | error e2 =>
    rw [hmk] at hvalid
    cases hvalid
  | ok dt =>
    obtain ⟨hdt, hy1, hy2, hm1, hm2, hd1, hd2⟩ := mkDate_ok_inv hmk
    refine ⟨charVal a * 10 + charVal b, charVal c * 10 + charVal d,
      ((charVal e * 10 + charVal f) * 10 + charVal g) * 10 + charVal h8, ?_, hdt ▸ hmk⟩
    rw [mkBirthday, if_pos (reSearchBirthday_full heq ha hb hc hd he hf hg hh)]
    rw [strptimeDMY_full heq ha hb hc hd he hf hg hh hd1
      (hd2.trans (daysInMonth_le_31 _ _)) hm1 hm2]
    dsimp only
    rw [hmk, hdt]

theorem mkBirthday_error_msg {s e : String} (h : mkBirthday s = .error e) :
    e = "Invalid date format. Use DD.MM.YYYY" := by
  rw [mkBirthday] at h
  split_ifs at h with h1
  · cases hp : strptimeDMY s with
    | none =>
      rw [hp] at h
      cases h
      rfl
    | some t =>
      obtain ⟨dy, mo, yr⟩ := t
      rw [hp] at h
      dsimp only at h
      cases hmk : mkDate yr mo dy with
      | ok dt =>
        rw [hmk] at h
        cases h
      | error e2 =>
        rw [hmk] at h
        cases h
        rfl
  · cases h
    rfl

theorem fullPatternValid_of_mkBirthday {s : String} {b : Birthday}
    (h : mkBirthday s = .ok b) :
    fullPatternValid s = true ∧ mkDate b.value.year b.value.month b.value.day = .ok b.value := by
  rw [mkBirthday] at h
  split_ifs at h with hsearch
  · cases hp : strptimeDMY s with
    | none =>
      rw [hp] at h
      cases h
    | some t =>
      obtain ⟨dy, mo, yr⟩ := t
      rw [hp] at h
      dsimp only at h
      cases hmk : mkDate yr mo dy with
      | error e2 =>
        rw [hmk] at h
        cases h
      | ok dt =>
        rw [hmk] at h
        rw [Except.ok.injEq] at h
        subst h
        obtain ⟨hdt, hy1, hy2, hm1, hm2, hd1, hd2⟩ := mkDate_ok_inv hmk
        rcases strptimeDMY_inv hp with
          ⟨a, b2, c, d, e, f, g, h8, heq, ha, hb, hc, hd, he, hf, hg, hh,
            hdy, hdylo, hdyhi, hmo, hmolo, hmohi, hyr⟩ | hshort
        · constructor
          · rw [fullPatternValid, heq]
            simp only [Bool.and_eq_true, decide_eq_true_eq]
            refine ⟨⟨⟨⟨⟨⟨⟨⟨⟨⟨trivial, trivial⟩, ha⟩, hb⟩, hc⟩, hd⟩, he⟩, hf⟩, hg⟩, hh⟩, ?_⟩
            rw [← hyr, ← hmo, ← hdy, hmk]
            rfl
          · rw [hdt]
            rw [hdt] at hmk
            exact hmk
        · exfalso
          rw [reSearchBirthday, searchBD_short hshort none] at hsearch
          cases hsearch

/-! Claim C5. -/

/-- C5: the Birthday constructor succeeds exactly when the whole string
matches the ten-character day.month.year pattern and denotes a valid calendar
date (so 31.02.2000 is rejected at the date-construction step); otherwise it
fails with the invalid-date message; and on success a validated calendar date,
not the original string, is stored. -/
theorem c5_birthday_constructor_iff (s : String) :
    ((∃ b, mkBirthday s = .ok b) ↔ fullPatternValid s = true) ∧
    (∀ b, mkBirthday s = .ok b → mkDate b.value.year b.value.month b.value.day = .ok b.value) ∧
    (fullPatternValid s = false → mkBirthday s = .error "Invalid date format. Use DD.MM.YYYY") := by
  refine ⟨⟨fun hx => ?_, fun hv => ?_⟩, fun b hb => (fullPatternValid_of_mkBirthday hb).2,
    fun hv => ?_⟩
  · obtain ⟨b, hb⟩ := hx
    exact (fullPatternValid_of_mkBirthday hb).1
  · obtain ⟨dy, mo, yr, hok, _⟩ := mkBirthday_of_fullPatternValid hv
    exact ⟨_, hok⟩
  · cases hm : mkBirthday s with
    | ok b =>
      exfalso
      have hfp := (fullPatternValid_of_mkBirthday hm).1
      rw [hv] at hfp
      cases hfp
    | error e =>
      rw [mkBirthday_error_msg hm]

/-- C5 witness: a valid date string constructs, an impossible calendar date
(31.02.2000, matching the pattern shape) fails with the invalid-date message. -/
theorem c5_witness :
    (∃ b, mkBirthday "10.06.1990" = .ok b) ∧
    mkBirthday "31.02.2000" = .error "Invalid date format. Use DD.MM.YYYY" :=
  ⟨(c5_birthday_constructor_iff "10.06.1990").1.mpr (by decide),
   (c5_birthday_constructor_iff "31.02.2000").2.2 (by decide)⟩

/-! Claim C6. -/

theorem digitChar_charVal {c : Char} (h : isD c = true) : digitChar (charVal c) = c := by
  have hv := isD_toNat h
  rw [digitChar, charVal]
  have h48 : 48 + (c.toNat - 48) = c.toNat := by omega
  rw [h48, Char.ofNat_toNat]

/-- C6: every string that matches DD.MM.YYYY and denotes a valid calendar date
constructs a Birthday successfully, and rendering the stored date back to text
returns the identical string. -/
theorem c6_birthday_roundtrip (s : String) (h : fullPatternValid s = true) :
    ∃ b, mkBirthday s = .ok b ∧ strftimeDMY b.value = s := by
  obtain ⟨a, b, c, d, e, f, g, h8, heq, ha, hb, hc, hd, he, hf, hg, hh, hvalid⟩ :=
    fullPatternValid_inv h
  cases hmk : mkDate (((charVal e * 10 + charVal f) * 10 + charVal g) * 10 + charVal h8)
      (charVal c * 10 + charVal d) (charVal a * 10 + charVal b) with
  | error e2 =>
    rw [hmk] at hvalid
    cases hvalid
  | ok dt =>
    obtain ⟨hdt, hy1, hy2, hm1, hm2, hd1, hd2⟩ := mkDate_ok_inv hmk
    have hvda := isD_toNat ha
    have hvdb := isD_toNat hb
    have hvdc := isD_toNat hc
    have hvdd := isD_toNat hd
    have hvde := isD_toNat he
    have hvdf := isD_toNat hf
    have hvdg := isD_toNat hg
    have hvdh := isD_toNat hh
    refine ⟨⟨dt⟩, ?_, ?_⟩
    · rw [mkBirthday, if_pos (reSearchBirthday_full heq ha hb hc hd he hf hg hh)]
      rw [strptimeDMY_full heq ha hb hc hd he hf hg hh hd1
        (hd2.trans (daysInMonth_le_31 _ _)) hm1 hm2]
      dsimp only
      rw [hmk]
    · rw [hdt]
      rw [strftimeDMY]
      dsimp only
      have e1 : (charVal a * 10 + charVal b) / 10 % 10 = charVal a := by
        simp only [charVal]
        omega
      have e2 : (charVal a * 10 + charVal b) % 10 = charVal b := by
        simp only [charVal]
        omega
      have e3 : (charVal c * 10 + charVal d) / 10 % 10 = charVal c := by
        simp only [charVal]
        omega
      have e4 : (charVal c * 10 + charVal d) % 10 = charVal d := by
        simp only [charVal]
        omega
      have e5 : (((charVal e * 10 + charVal f) * 10 + charVal g) * 10 + charVal h8) /
          1000 % 10 = charVal e := by
        simp only [charVal]
        omega
      have e6 : (((charVal e * 10 + charVal f) * 10 + charVal g) * 10 + charVal h8) /
          100 % 10 = charVal f := by
        simp only [charVal]
        omega
      have e7 : (((charVal e * 10 + charVal f) * 10 + charVal g) * 10 + charVal h8) /
          10 % 10 = charVal g := by
        simp only [charVal]
        omega
      have e8 : (((charVal e * 10 + charVal f) * 10 + charVal g) * 10 + charVal h8) %
          10 = charVal h8 := by
        simp only [charVal]
        omega
      rw [e1, e2, e3, e4, e5, e6, e7, e8, digitChar_charVal ha, digitChar_charVal hb,
        digitChar_charVal hc, digitChar_charVal hd, digitChar_charVal he,
        digitChar_charVal hf, digitChar_charVal hg, digitChar_charVal hh]
      rw [show s = String.mk s.data from rfl, heq]

/-- C6 witness: the round trip at the concrete valid date string 10.06.1990. -/
theorem c6_witness :
    fullPatternValid "10.06.1990" = true ∧ strftimeDMY ⟨1990, 6, 10⟩ = "10.06.1990" := by
  refine ⟨by decide, ?_⟩
  obtain ⟨b, hok, hround⟩ := c6_birthday_roundtrip "10.06.1990" (by decide)
  have hb : b = ⟨⟨1990, 6, 10⟩⟩ := by
    have hconc : mkBirthday "10.06.1990" = .ok ⟨⟨1990, 6, 10⟩⟩ := by decide
    rw [hconc, Except.ok.injEq] at hok
    exact hok.symm
  rw [hb] at hround
  exact hround
